import Mathlib

/-!
Verification development for the sensitive-info-extractor engine.

Texts are modelled as `List Char`; a match position is a character index
into the text (the source stores byte offsets; character indices and byte
offsets are in monotone one-to-one correspondence at character boundaries,
so span comparisons and slicing transfer unchanged).  The regex character
classes `\d` / `\D` are modelled by `Char.isDigit` (the inputs of interest
are in the fragment where the Unicode and ASCII digit classes agree) and
`\s` by `Char.isWhitespace`.
-/

namespace SIE

/-- `clean_digits` from utils/regex_patterns.rs: remove every non-digit
character (`NON_DIGIT.replace_all(s, "")`). -/
def clean_digits (s : List Char) : List Char :=
  s.filter Char.isDigit

/-- `char::to_digit(10)` restricted to decimal. -/
def to_digit (c : Char) : Option Nat :=
  if c.isDigit then some (c.toNat - 48) else none

/-- The contribution of one digit to a Luhn sum, given its position counted
from the right (rightmost digit at position 1): positions at even distance
are doubled, and a doubled value exceeding 9 has 9 subtracted. -/
def luhn_term (pos d : Nat) : Nat :=
  if pos % 2 = 0 then (if d * 2 > 9 then d * 2 - 9 else d * 2) else d

/-- The loop of `Validator::luhn_check`: the digit at (0-based) index `i` of a
list of length `len` has `position_from_right = len - i`; walking the list
left to right that position counts down from `len` to 1. -/
def luhn_sum_aux : Nat → List Nat → Nat
  | _, [] => 0
  | pfr, d :: rest => luhn_term pfr d + luhn_sum_aux (pfr - 1) rest

/-- `Validator::luhn_check`. -/
def luhn_check (number : List Char) : Bool :=
  let digits := number.filterMap to_digit
  if digits.length ≠ number.length then false
  else luhn_sum_aux digits.length digits % 10 = 0

/-- `Validator::validate_bank_card`: strip non-digits, require length in
`16..=19`, all digits, then the Luhn check. -/
def validate_bank_card (card_number : List Char) : Bool :=
  let clean_number := clean_digits card_number
  if ¬ (16 ≤ clean_number.length ∧ clean_number.length ≤ 19) then false
  else if ¬ clean_number.all Char.isDigit then false
  else luhn_check clean_number

/-- `Validator::validate_phone`: strip non-digits, require exactly 11 digits,
first digit `1`, second digit in `3..=9`. -/
def validate_phone (phone : List Char) : Bool :=
  let clean_number := clean_digits phone
  if clean_number.length ≠ 11 then false
  else if ¬ clean_number.all Char.isDigit then false
  else
    match clean_number with
    | c1 :: c2 :: _ => c1 = '1' && ('3' ≤ c2 && c2 ≤ '9')
    | _ => false

/-- `ID_WEIGHTS` from utils/regex_patterns.rs. -/
def ID_WEIGHTS : List Nat := [7, 9, 10, 5, 8, 4, 2, 1, 6, 3, 7, 9, 10, 5, 8, 4, 2]

/-- `ID_CHECK_CODES` from utils/regex_patterns.rs. -/
def ID_CHECK_CODES : List Char := ['1', '0', 'X', '9', '8', '7', '6', '5', '4', '3', '2']

/-- The accumulation loop of `Validator::verify_id_card_checksum`: fold over
indices 0..16, failing out on a non-digit character. -/
def checksum_fold (chars : List Char) : Option Nat :=
  (List.range 17).foldl
    (fun acc i =>
      acc.bind (fun a => (to_digit (chars.getD i ' ')).map (fun d => a + d * ID_WEIGHTS.getD i 0)))
    (some 0)

/-- `Validator::verify_id_card_checksum`. -/
def verify_id_card_checksum (chars : List Char) : Bool :=
  match checksum_fold chars with
  | none => false
  | some sum => (chars.getD 17 ' ').toUpper = ID_CHECK_CODES.getD (sum % 11) ' '

/-- The numeric value of a decimal digit string (what `str::parse::<u32>`
returns on the short all-digit substrings used by the date check). -/
def digits_val (cs : List Char) : Nat :=
  cs.foldl (fun a c => a * 10 + (c.toNat - 48)) 0

/-- `str::parse::<u32>` as used on the 2–4 character date substrings (the
sign and overflow cases of the full parser are unreachable there). -/
def parse_nat (cs : List Char) : Option Nat :=
  if cs ≠ [] ∧ cs.all Char.isDigit then some (digits_val cs) else none

/-- `Validator::days_in_month`, with the leap-year rule
`(y % 4 == 0 && y % 100 != 0) || y % 400 == 0`. -/
def days_in_month (year month : Nat) : Nat :=
  if month = 1 ∨ month = 3 ∨ month = 5 ∨ month = 7 ∨ month = 8 ∨ month = 10 ∨ month = 12 then 31
  else if month = 4 ∨ month = 6 ∨ month = 9 ∨ month = 11 then 30
  else if month = 2 then
    (if (year % 4 = 0 ∧ ¬ year % 100 = 0) ∨ year % 400 = 0 then 29 else 28)
  else 0

/-- `Validator::verify_id_card_birth_date`: parse chars 6..9 as the year,
10..11 as the month, 12..13 as the day, then range-check them. -/
def verify_id_card_birth_date (chars : List Char) : Bool :=
  match parse_nat ((chars.drop 6).take 4), parse_nat ((chars.drop 10).take 2),
        parse_nat ((chars.drop 12).take 2) with
  | some year, some month, some day =>
    if ¬ (1900 ≤ year ∧ year ≤ 2099) then false
    else if ¬ (1 ≤ month ∧ month ≤ 12) then false
    else decide (1 ≤ day ∧ day ≤ days_in_month year month)
  | _, _, _ => false

/-- `Validator::validate_id_card`: length 18, first 17 ASCII digits, last
char a digit or `X`/`x`, checksum, then birth-date check.  (For strings
containing a non-ASCII character the source's byte-length test and these
character tests reject in the same cases.) -/
def validate_id_card (id_card : List Char) : Bool :=
  if id_card.length ≠ 18 then false
  else if ¬ (id_card.take 17).all Char.isDigit then false
  else
    let last_char := id_card.getD 17 ' '
    if ¬ (last_char.isDigit || last_char = 'X' || last_char = 'x') then false
    else if ¬ verify_id_card_checksum id_card then false
    else verify_id_card_birth_date id_card

/-! ## Pattern matchers

A small star-free regular-expression language sufficient for the three
patterns of utils/regex_patterns.rs, with the leftmost-first (backtracking
preference) match semantics of the Rust `regex` crate: `outcomes` lists the
ways the whole expression can match at a position, in backtracking
preference order, and the engine takes the first one.  `captures_iter` is
modelled by repeatedly finding the leftmost match and resuming the search
at the end of the previous overall match. -/

/-- Star-free regular expressions over characters.  `alt a b` prefers `a`;
`bos`/`eos` are the `^`/`$` anchors; `group` marks the single named capture
group each pattern carries. -/
inductive RE where
  | eps : RE
  | pred : (Char → Bool) → RE
  | bos : RE
  | eos : RE
  | seq : RE → RE → RE
  | alt : RE → RE → RE
  | group : RE → RE

/-- One way a regex can match starting at some position: the position after
the match and the span of the capture group, if it participated. -/
structure MOut where
  stop : Nat
  grp : Option (Nat × Nat)
deriving DecidableEq

/-- All ways `re` can match `text` starting at position `i`, in backtracking
preference order (greedy repetition and left-biased alternation). -/
def outcomes (text : List Char) : RE → Nat → List MOut
  | .eps, i => [⟨i, none⟩]
  | .pred p, i =>
    if i < text.length ∧ p (text.getD i ' ') = true then [⟨i + 1, none⟩] else []
  | .bos, i => if i = 0 then [⟨i, none⟩] else []
  | .eos, i => if i = text.length then [⟨i, none⟩] else []
  | .seq a b, i =>
    (outcomes text a i).flatMap (fun o =>
      (outcomes text b o.stop).map (fun o2 =>
        ⟨o2.stop, match o.grp with | some g => some g | none => o2.grp⟩))
  | .alt a b, i => outcomes text a i ++ outcomes text b i
  | .group a, i => (outcomes text a i).map (fun o => ⟨o.stop, some (i, o.stop)⟩)

/-- Scan for the leftmost match: try start positions `i`, `i+1`, … while
fuel remains; at each, take the engine's preferred outcome. -/
def first_match_aux (text : List Char) (re : RE) : Nat → Nat → Option (Nat × MOut)
  | 0, _ => none
  | fuel + 1, i =>
    match (outcomes text re i).head? with
    | some o => some (i, o)
    | none => first_match_aux text re fuel (i + 1)

/-- Leftmost match of `re` in `text` at or after position `start`. -/
def find_from (text : List Char) (re : RE) (start : Nat) : Option (Nat × MOut) :=
  first_match_aux text re (text.length + 1 - start) start

/-- The loop of `captures_iter`: collect capture-group spans of successive
non-overlapping leftmost matches, resuming after each overall match (an
empty overall match would advance by one position, as the crate does; the
three patterns never match empty). -/
def captures_aux (text : List Char) (re : RE) : Nat → Nat → List (Nat × Nat)
  | 0, _ => []
  | fuel + 1, start =>
    match find_from text re start with
    | none => []
    | some (_, o) =>
      let next := if start < o.stop then o.stop else start + 1
      match o.grp with
      | some g => g :: captures_aux text re fuel next
      | none => captures_aux text re fuel next

/-- All capture-group spans of the non-overlapping leftmost matches of `re`
in `text`, left to right. -/
def captures (text : List Char) (re : RE) : List (Nat × Nat) :=
  captures_aux text re (text.length + 1) 0

/-- The shape shared by `extract_phones` / `extract_id_cards` /
`extract_bank_cards`: for each match, the named group's text and span. -/
def extract_matches (re : RE) (text : List Char) : List (List Char × Nat × Nat) :=
  (captures text re).map (fun g => ((text.drop g.1).take (g.2 - g.1), g.1, g.2))

/-- A single literal character. -/
def chr (c : Char) : RE := .pred (fun x => x = c)

/-- `\d`. -/
def digitP : RE := .pred Char.isDigit

/-- `\D`. -/
def nonDigitP : RE := .pred (fun c => !c.isDigit)

/-- `[-\s]`. -/
def sepP : RE := .pred (fun c => c = '-' || c.isWhitespace)

/-- `r?` (greedy: prefer matching `r`). -/
def opt (r : RE) : RE := .alt r .eps

/-- Sequencing of a list of expressions. -/
def cat (rs : List RE) : RE := rs.foldr .seq .eps

/-- The named group of the `PHONE` pattern:
`(?:\+?86[-\s]?)? 1[3-9]\d [-\s]? \d{4} [-\s]? \d{4}`. -/
def phone_core : RE := cat [
  opt (cat [opt (chr '+'), chr '8', chr '6', opt sepP]),
  chr '1', .pred (fun c => '3' ≤ c && c ≤ '9'), digitP,
  opt sepP, digitP, digitP, digitP, digitP,
  opt sepP, digitP, digitP, digitP, digitP]

/-- The `PHONE` pattern: `(?:^|\D) (?P<phone> …) (?:$|\D)`. -/
def PHONE : RE := cat [.alt .bos nonDigitP, .group phone_core, .alt .eos nonDigitP]

/-- The named group of the `ID_CARD` pattern:
`[1-9]\d{5} (?:19|20)\d{2} (?:0[1-9]|1[0-2]) (?:0[1-9]|[12]\d|3[01]) \d{3} [\dXx]`. -/
def id_card_core : RE := cat [
  .pred (fun c => '1' ≤ c && c ≤ '9'), digitP, digitP, digitP, digitP, digitP,
  .alt (cat [chr '1', chr '9']) (cat [chr '2', chr '0']), digitP, digitP,
  .alt (cat [chr '0', .pred (fun c => '1' ≤ c && c ≤ '9')])
       (cat [chr '1', .pred (fun c => '0' ≤ c && c ≤ '2')]),
  .alt (cat [chr '0', .pred (fun c => '1' ≤ c && c ≤ '9')])
       (.alt (cat [.pred (fun c => c = '1' || c = '2'), digitP])
             (cat [chr '3', .pred (fun c => c = '0' || c = '1')])),
  digitP, digitP, digitP,
  .pred (fun c => c.isDigit || c = 'X' || c = 'x')]

/-- The `ID_CARD` pattern: `(?:^|\D) (?P<id_card> …) (?:$|[^\dXx])`. -/
def ID_CARD : RE := cat [.alt .bos nonDigitP, .group id_card_core,
  .alt .eos (.pred (fun c => !(c.isDigit || c = 'X' || c = 'x')))]

/-- The named group of the `BANK_CARD` pattern:
`\d{4}[-\s]? \d{4}[-\s]? \d{4}[-\s]? \d{4} (?:[-\s]?\d{1,3})?`. -/
def bank_card_core : RE := cat [
  digitP, digitP, digitP, digitP, opt sepP,
  digitP, digitP, digitP, digitP, opt sepP,
  digitP, digitP, digitP, digitP, opt sepP,
  digitP, digitP, digitP, digitP,
  opt (cat [opt sepP, digitP, opt (cat [digitP, opt digitP])])]

/-- The `BANK_CARD` pattern: `(?:^|\D) (?P<bank_card> …) (?:$|\D)`. -/
def BANK_CARD : RE := cat [.alt .bos nonDigitP, .group bank_card_core, .alt .eos nonDigitP]

/-- `extract_phones` from utils/regex_patterns.rs. -/
def extract_phones (text : List Char) : List (List Char × Nat × Nat) :=
  extract_matches PHONE text

/-- `extract_id_cards` from utils/regex_patterns.rs. -/
def extract_id_cards (text : List Char) : List (List Char × Nat × Nat) :=
  extract_matches ID_CARD text

/-- `extract_bank_cards` from utils/regex_patterns.rs. -/
def extract_bank_cards (text : List Char) : List (List Char × Nat × Nat) :=
  extract_matches BANK_CARD text

/-! ## Extraction coordinator (core/extractor.rs)

The name category delegates to the external network service and is out of
scope here (it is disabled in the claims' scenarios); `extract` is modelled
as returning the phone, ID-card and bank-card lists. -/

/-- `MatchInfo` from models/extract_result.rs. -/
structure MatchInfo where
  value : List Char
  is_valid : Bool
  position : Nat × Nat
deriving DecidableEq

/-- `MatchInfo::new`. -/
def MatchInfo.new (value : List Char) (is_valid : Bool) (start_ stop : Nat) : MatchInfo :=
  ⟨value, is_valid, (start_, stop)⟩

/-- The configuration fields of `Config` the engine reads. -/
structure Config where
  context_lines : Nat
  target_column : List Char
  enable_phone : Bool
  enable_id_card : Bool
  enable_bank_card : Bool
deriving DecidableEq

/-- `InfoExtractor::extract_phones`. -/
def info_extract_phones (text : List Char) : List MatchInfo :=
  (extract_phones text).map (fun t => MatchInfo.new t.1 (validate_phone t.1) t.2.1 t.2.2)

/-- `InfoExtractor::extract_id_cards`. -/
def info_extract_id_cards (text : List Char) : List MatchInfo :=
  (extract_id_cards text).map (fun t => MatchInfo.new t.1 (validate_id_card t.1) t.2.1 t.2.2)

/-- `InfoExtractor::extract_bank_cards_filtered`: drop candidates whose span
overlaps any excluded span, then validate the rest. -/
def extract_bank_cards_filtered (text : List Char) (exclude_positions : List (Nat × Nat)) :
    List MatchInfo :=
  ((extract_bank_cards text).filter (fun t =>
      !(exclude_positions.any (fun e => t.2.1 < e.2 && t.2.2 > e.1)))).map
    (fun t => MatchInfo.new t.1 (validate_bank_card t.1) t.2.1 t.2.2)

/-- `InfoExtractor::extract`: per-category extraction gated by the enable
flags, with bank-card candidates filtered against the spans of the valid
ID-card matches before validation. -/
def info_extract (config : Config) (text : List Char) :
    List MatchInfo × List MatchInfo × List MatchInfo :=
  let phones := if config.enable_phone then info_extract_phones text else []
  let id_cards := if config.enable_id_card then info_extract_id_cards text else []
  let valid_id_card_positions := (id_cards.filter (fun m => m.is_valid)).map (fun m => m.position)
  let bank_cards :=
    if config.enable_bank_card then extract_bank_cards_filtered text valid_id_card_positions
    else []
  (phones, id_cards, bank_cards)

/-! ## Sheets and the file processor (core/excel_reader.rs, core/processor.rs) -/

/-- `SheetData`: the rectangular text grid of one sheet; row 0 is the
header. -/
structure SheetData where
  rows : List (List (List Char))
deriving DecidableEq

/-- Rendering of one context row: the row's cells joined with `" | "`. -/
def join_row (row : List (List Char)) : List Char :=
  List.intercalate " | ".toList row

/-- `SheetData::get_context`: for `i` descending from `context_lines` to 1
push `rows[row_index + 1 - i]` when `row_index + 1 > i`, and for `i`
ascending from 1 to `context_lines` push `rows[row_index + 1 + i]` when it
exists. -/
def SheetData.get_context (sd : SheetData) (row_index context_lines : Nat) :
    List (List Char) × List (List Char) :=
  let before := ((List.range context_lines).map (fun k => context_lines - k)).filterMap
    (fun i =>
      if row_index + 1 > i then (sd.rows.get? (row_index + 1 - i)).map join_row else none)
  let after := (List.range context_lines).filterMap
    (fun k => (sd.rows.get? (row_index + 1 + (k + 1))).map join_row)
  (before, after)

/-- `SheetData::column_names`: the header row, or empty. -/
def SheetData.column_names (sd : SheetData) : List (List Char) :=
  sd.rows.head?.getD []

/-- `SheetData::get_column_index`: position of the column name in the
header row. -/
def SheetData.get_column_index (sd : SheetData) (column_name : List Char) : Option Nat :=
  sd.rows.head?.bind (fun hd => hd.findIdx? (fun c => c = column_name))

/-- `SheetData::get_column_by_name`: the `(row_index, cell)` pairs of the
named column over the data rows (`enumerate().skip(1)`), an empty cell for
rows too short, or an error when the column is absent. -/
def SheetData.get_column_by_name (sd : SheetData) (column_name : List Char) :
    Except (List Char) (List (Nat × List Char)) :=
  match sd.get_column_index column_name with
  | none => .error column_name
  | some col_index =>
    .ok ((sd.rows.enum.drop 1).map (fun p =>
      (p.1, if col_index < p.2.length then p.2.getD col_index [] else [])))

/-- Substring containment (`str::contains`). -/
def contains_sub (hay needle : List Char) : Bool :=
  (List.range (hay.length + 1)).any (fun i => needle.isPrefixOf (hay.drop i))

/-- The auto-detection marker `"消息内容"`. -/
def target_marker : List Char := "消息内容".toList

/-- `Processor::find_target_column`: the first column whose header contains
the marker, else the first column, else an error. -/
def find_target_column (sd : SheetData) : Except (List Char) (List Char) :=
  match sd.column_names.find? (fun col => contains_sub col target_marker) with
  | some col => .ok col
  | none =>
    match sd.column_names.head? with
    | some col => .ok col
    | none => .error "no columns".toList

/-- `ExtractResult` from models/extract_result.rs (the fields the processor
fills; the name category is out of scope). -/
structure ExtractResult where
  source_file : List Char
  sheet_name : List Char
  row_number : Nat
  phone_numbers : List MatchInfo
  id_cards : List MatchInfo
  bank_cards : List MatchInfo
  source_text : List Char
  context_before : List (List Char)
  context_after : List (List Char)
deriving DecidableEq

/-- The per-row loop of `Processor::process_file_with_progress`: skip empty
cells, run the extractor, and emit an `ExtractResult` (with the row's
context) for every cell with at least one match in some category. -/
def process_rows (config : Config) (file_name sheet_name : List Char) (sd : SheetData)
    (column_data : List (Nat × List Char)) : List ExtractResult :=
  column_data.filterMap (fun p =>
    if p.2 = [] then none
    else
      let ext := info_extract config p.2
      if ext.1 ≠ [] ∨ ext.2.1 ≠ [] ∨ ext.2.2 ≠ [] then
        let ctx := sd.get_context p.1 config.context_lines
        some ⟨file_name, sheet_name, p.1 + 1, ext.1, ext.2.1, ext.2.2, p.2, ctx.1, ctx.2⟩
      else none)

/-- What one sheet is to the processor: its name and the outcome of
`read_sheet` for it (reading a sheet can fail). -/
def SheetInput : Type := List Char × Except (List Char) SheetData

/-- What one file is to the processor: the outcome of `ExcelReader::open`,
carrying the sheets on success. -/
def FileInput : Type := Except (List Char) (List SheetInput)

/-- The per-sheet step of `Processor::process_file_with_progress`: a sheet
read error fails the file; the target column is the configured one when
non-empty, else auto-detected (failure fails the file); a sheet on which
`get_column_by_name` errors is skipped; otherwise the sheet's rows are
processed and appended. -/
def process_one_sheet (config : Config) (file_name : List Char)
    (acc : List ExtractResult) (sheet : SheetInput) :
    Except (List Char) (List ExtractResult) :=
  match sheet.2 with
  | .error e => .error e
  | .ok sd =>
    match (if config.target_column = [] then find_target_column sd
           else .ok config.target_column) with
    | .error e => .error e
    | .ok target_column =>
      match sd.get_column_by_name target_column with
      | .error _ => .ok acc
      | .ok column_data => .ok (acc ++ process_rows config file_name sheet.1 sd column_data)

/-- `Processor::process_file_with_progress` (result value; progress
reporting is modelled separately): open the file, then fold the per-sheet
step over its sheets, `?`-propagating errors. -/
def process_file (config : Config) (file_name : List Char) (input : FileInput) :
    Except (List Char) (List ExtractResult) :=
  match input with
  | .error e => .error e
  | .ok sheets => sheets.foldlM (process_one_sheet config file_name) []

/-- The result list of `Processor::process_files_parallel`: each file is
mapped independently to its name and its own outcome. -/
def process_files (config : Config) (files : List (List Char × FileInput)) :
    List (List Char × Except (List Char) (List ExtractResult)) :=
  files.map (fun f => (f.1, process_file config f.1 f.2))

/-! ## Progress reporting (core/processor.rs)

`process_files_parallel` shares one atomic row counter; each worker adds
its locally-buffered batch with `fetch_add` and then invokes the callback
with the percentage computed from the counter's new value.  There is no
synchronization between the `fetch_add` and the callback call, so the two
are separate steps of a scheduler over the workers: a worker with a larger
counter value may deliver its percentage before a worker holding a smaller
one.  The percentage
`((processed as f64 / total as f64) * 100.0).min(100.0) as u8` is modelled
by its integer value; the `f64` computation is a monotone rounding of the
same ratio, so the ordering facts proved below transfer. -/

/-- The reported percentage for `processed` of `total` rows. -/
def progress_value (total processed : Nat) : Nat :=
  min (processed * 100 / total) 100

/-- One worker of the parallel loop: the percent it has computed from its
last `fetch_add` but not yet passed to the callback, and its remaining
locally-buffered batch sizes, in program order. -/
structure WorkerState where
  pending : Option Nat
  batches : List Nat
deriving DecidableEq

/-- The state of one run: the shared atomic counter, the workers, and the
percents passed to the callback so far, in delivery order, each tagged
with the delivering worker's index. -/
structure RunState where
  counter : Nat
  workers : List WorkerState
  output : List (Nat × Nat)
deriving DecidableEq

/-- One scheduler step: worker `i` performs its next action in program
order — pass its computed percent to the callback, or `fetch_add` its next
batch and compute the percent from the counter's new value; a finished or
absent worker leaves the state unchanged. -/
def sched_step (total : Nat) (st : RunState) (i : Nat) : RunState :=
  match st.workers.get? i with
  | none => st
  | some w =>
    match w.pending with
    | some p => ⟨st.counter, st.workers.set i ⟨none, w.batches⟩, st.output ++ [(i, p)]⟩
    | none =>
      match w.batches with
      | [] => st
      | b :: rest =>
        ⟨st.counter + b,
         st.workers.set i ⟨some (progress_value total (st.counter + b)), rest⟩,
         st.output⟩

/-- A run of the parallel loop under a schedule (the interleaving of the
workers' steps). -/
def sched_run (total : Nat) (workers : List WorkerState) (schedule : List Nat) : RunState :=
  schedule.foldl (sched_step total) ⟨0, workers, []⟩

/-- The percents one run passes to the callback, in delivery order: the
initial 0, the workers' deliveries as scheduled, and the final 100 issued
after the parallel join; with `total = 0` the sequential path reports 0
then 100. -/
def run_reports (total : Nat) (workers : List WorkerState) (schedule : List Nat) : List Nat :=
  if total = 0 then [0, 100]
  else 0 :: (sched_run total workers schedule).output.map (fun e => e.2) ++ [100]

/-- The subsequence of percents delivered by worker `i`. -/
def worker_reports (st : RunState) (i : Nat) : List Nat :=
  (st.output.filter (fun e => e.1 = i)).map (fun e => e.2)

/-- The run invariant behind per-worker monotonicity: each worker's
delivered percents are non-decreasing, bounded by the percent of the
current counter value, and below that worker's pending percent, itself
computed from a counter value no newer than the current one. -/
def run_inv (total : Nat) (st : RunState) : Prop :=
  ∀ i : Nat,
    List.Chain' (· ≤ ·) (worker_reports st i) ∧
    (∀ q ∈ (worker_reports st i).getLast?, q ≤ progress_value total st.counter) ∧
    (∀ w, st.workers.get? i = some w → ∀ p, w.pending = some p →
      (∀ q ∈ (worker_reports st i).getLast?, q ≤ p) ∧ p ≤ progress_value total st.counter)

/-- Modelled from the spec, for the refinement claim about the Luhn check:
"starting from the rightmost digit at position 1, double the digit at every
even position counted from the right, subtract 9 from any doubled value
exceeding 9, sum all resulting digits".  The list argument is read from the
rightmost digit outward. -/
def spec_luhn_from_right : Nat → List Nat → Nat
  | _, [] => 0
  | pos, d :: rest => luhn_term pos d + spec_luhn_from_right (pos + 1) rest

/-- The spec's Luhn predicate on a digit list given left to right. -/
def spec_luhn (ds : List Nat) : Prop :=
  spec_luhn_from_right 1 ds.reverse % 10 = 0

instance (ds : List Nat) : Decidable (spec_luhn ds) := by
  unfold spec_luhn
  infer_instance

/-- A regex that can only match a non-empty stretch of text: some character
must be consumed on every path. -/
def strictRE : RE → Bool
  | .pred _ => true
  | .seq a b => strictRE a || strictRE b
  | .alt a b => strictRE a && strictRE b
  | .group a => strictRE a
  | _ => false

/-- Every capture group in the regex has a body that consumes at least one
character. -/
def groups_strict : RE → Bool
  | .seq a b => groups_strict a && groups_strict b
  | .alt a b => groups_strict a && groups_strict b
  | .group a => strictRE a && groups_strict a
  | _ => true

/-- Modelled from the spec, for the refinement claim about the ID check
character: sum of digit `i` times the weight table over `i = 0..16`, taken
mod 11 and mapped through the check-code table. -/
def spec_id_check_char (s : List Char) : Char :=
  ID_CHECK_CODES.getD
    ((((List.range 17).map (fun i => ((s.getD i ' ').toNat - 48) * ID_WEIGHTS.getD i 0)).sum) % 11)
    ' '

/-- The year encoded at characters 6–9. -/
def spec_year (s : List Char) : Nat := digits_val ((s.drop 6).take 4)

/-- The month encoded at characters 10–11. -/
def spec_month (s : List Char) : Nat := digits_val ((s.drop 10).take 2)

/-- The day encoded at characters 12–13. -/
def spec_day (s : List Char) : Nat := digits_val ((s.drop 12).take 2)

/-- Modelled from the spec: the standard leap-year rule. -/
def spec_leap (y : Nat) : Prop := (y % 4 = 0 ∧ ¬ y % 100 = 0) ∨ y % 400 = 0

instance (y : Nat) : Decidable (spec_leap y) := by
  unfold spec_leap
  infer_instance

/-- Modelled from the spec: days-in-month under the standard leap-year
rule (only consulted for months 1–12). -/
def spec_days_in_month (y m : Nat) : Nat :=
  if m = 2 then (if spec_leap y then 29 else 28)
  else if m = 4 ∨ m = 6 ∨ m = 9 ∨ m = 11 then 30
  else 31

/-- Modelled from the spec, for the refinement claim about
`validate_id_card`: exactly 18 characters, 17 leading ASCII digits, a
digit-or-`X`/`x` check character matching the weighted checksum
case-insensitively, and a calendar-valid birth date with year 1900–2099. -/
def spec_id_valid (s : List Char) : Prop :=
  s.length = 18 ∧
  (∀ i, i < 17 → (s.getD i ' ').isDigit = true) ∧
  ((s.getD 17 ' ').isDigit = true ∨ s.getD 17 ' ' = 'X' ∨ s.getD 17 ' ' = 'x') ∧
  (s.getD 17 ' ').toUpper = spec_id_check_char s ∧
  (1900 ≤ spec_year s ∧ spec_year s ≤ 2099) ∧
  (1 ≤ spec_month s ∧ spec_month s ≤ 12) ∧
  (1 ≤ spec_day s ∧ spec_day s ≤ spec_days_in_month (spec_year s) (spec_month s))

instance (s : List Char) : Decidable (spec_id_valid s) := by
  unfold spec_id_valid
  infer_instance

/-- The `valid_id_card_positions` intermediate of `InfoExtractor::extract`:
spans of the valid ID-card matches (empty when the category is disabled). -/
def valid_id_positions (config : Config) (text : List Char) : List (Nat × Nat) :=
  ((if config.enable_id_card then info_extract_id_cards text else []).filter
      (fun m => m.is_valid)).map (fun m => m.position)

/-- What one successfully read sheet contributes to a file's result list: its
processed rows, or nothing when its target column is missing (the sheet is
skipped). -/
def sheet_results (config : Config) (file_name : List Char) (q : List Char × SheetData) :
    List ExtractResult :=
  match (if config.target_column = [] then find_target_column q.2 else Except.ok config.target_column) with
  | .error _ => []
  | .ok t =>
    match q.2.get_column_by_name t with
    | .error _ => []
    | .ok column_data => process_rows config file_name q.1 q.2 column_data

/-- A captured phone value that carries the country-code prefix: an optional
`+`, then `86`, an optional `-`/whitespace separator, and a remainder
holding the 11 mobile digits. -/
def has_cc_prefix (v : List Char) : Prop :=
  ∃ plus sep rest, (plus = [] ∨ plus = ['+']) ∧
    (sep = [] ∨ ∃ c, sep = [c] ∧ (c = '-' ∨ c.isWhitespace = true)) ∧
    v = plus ++ '8' :: '6' :: (sep ++ rest) ∧ (clean_digits rest).length = 11

/-! ## General facts about the matcher -/

theorem outcomes_stop_ge (text : List Char) :
    ∀ re : RE, ∀ i o, o ∈ outcomes text re i → i ≤ o.stop := by
  intro re
  induction re with
  | eps =>
    intro i o h
    simp only [outcomes, List.mem_singleton] at h
    simp [h]
  | pred p =>
    intro i o h
    simp only [outcomes] at h
    split at h
    · simp only [List.mem_singleton] at h
      simp [h]
    · simp at h
  | bos =>
    intro i o h
    simp only [outcomes] at h
    split at h
    · simp only [List.mem_singleton] at h
      simp [h]
    · simp at h
  | eos =>
    intro i o h
    simp only [outcomes] at h
    split at h
    · simp only [List.mem_singleton] at h
      simp [h]
    · simp at h
  | seq a b iha ihb =>
    intro i o h
    simp only [outcomes, List.mem_flatMap, List.mem_map] at h
    obtain ⟨o1, h1, o2, h2, rfl⟩ := h
    exact le_trans (iha i o1 h1) (ihb o1.stop o2 h2)
  | alt a b iha ihb =>
    intro i o h
    simp only [outcomes, List.mem_append] at h
    cases h with
    | inl h => exact iha i o h
    | inr h => exact ihb i o h
  | group a iha =>
    intro i o h
    simp only [outcomes, List.mem_map] at h
    obtain ⟨o1, h1, rfl⟩ := h
    exact iha i o1 h1

theorem outcomes_stop_gt (text : List Char) :
    ∀ re : RE, strictRE re = true → ∀ i o, o ∈ outcomes text re i → i < o.stop := by
  intro re
  induction re with
  | eps => intro hs; simp [strictRE] at hs
  | pred p =>
    intro _ i o h
    simp only [outcomes] at h
    split at h
    · simp only [List.mem_singleton] at h
      simp [h]
    · simp at h
  | bos => intro hs; simp [strictRE] at hs
  | eos => intro hs; simp [strictRE] at hs
  | seq a b iha ihb =>
    intro hs i o h
    simp only [outcomes, List.mem_flatMap, List.mem_map] at h
    obtain ⟨o1, h1, o2, h2, rfl⟩ := h
    simp only [strictRE, Bool.or_eq_true] at hs
    cases hs with
    | inl hsa => exact lt_of_lt_of_le (iha hsa i o1 h1) (outcomes_stop_ge text b o1.stop o2 h2)
    | inr hsb => exact lt_of_le_of_lt (outcomes_stop_ge text a i o1 h1) (ihb hsb o1.stop o2 h2)
  | alt a b iha ihb =>
    intro hs i o h
    simp only [strictRE, Bool.and_eq_true] at hs
    simp only [outcomes, List.mem_append] at h
    cases h with
    | inl h => exact iha hs.1 i o h
    | inr h => exact ihb hs.2 i o h
  | group a iha =>
    intro hs i o h
    simp only [outcomes, List.mem_map] at h
    obtain ⟨o1, h1, rfl⟩ := h
    exact iha hs i o1 h1

theorem outcomes_grp_spec (text : List Char) :
    ∀ re : RE, groups_strict re = true → ∀ i o, o ∈ outcomes text re i →
      ∀ gs ge, o.grp = some (gs, ge) → i ≤ gs ∧ gs < ge ∧ ge ≤ o.stop := by
  intro re
  induction re with
  | eps =>
    intro _ i o h gs ge hgr
    simp only [outcomes, List.mem_singleton] at h
    subst h
    simp at hgr
  | pred p =>
    intro _ i o h gs ge hgr
    simp only [outcomes] at h
    split at h
    · simp only [List.mem_singleton] at h
      subst h
      simp at hgr
    · simp at h
  | bos =>
    intro _ i o h gs ge hgr
    simp only [outcomes] at h
    split at h
    · simp only [List.mem_singleton] at h
      subst h
      simp at hgr
    · simp at h
  | eos =>
    intro _ i o h gs ge hgr
    simp only [outcomes] at h
    split at h
    · simp only [List.mem_singleton] at h
      subst h
      simp at hgr
    · simp at h
  | seq a b iha ihb =>
    intro hg i o h gs ge hgr
    simp only [groups_strict, Bool.and_eq_true] at hg
    simp only [outcomes, List.mem_flatMap, List.mem_map] at h
    obtain ⟨o1, h1, o2, h2, rfl⟩ := h
    simp only at hgr
    cases ho1 : o1.grp with
    | some g =>
      rw [ho1] at hgr
      simp only [Option.some.injEq] at hgr
      subst hgr
      obtain ⟨ha1, ha2, ha3⟩ := iha hg.1 i o1 h1 gs ge ho1
      exact ⟨ha1, ha2, le_trans ha3 (outcomes_stop_ge text b o1.stop o2 h2)⟩
    | none =>
      rw [ho1] at hgr
      obtain ⟨hb1, hb2, hb3⟩ := ihb hg.2 o1.stop o2 h2 gs ge hgr
      exact ⟨le_trans (outcomes_stop_ge text a i o1 h1) hb1, hb2, hb3⟩
  | alt a b iha ihb =>
    intro hg i o h gs ge hgr
    simp only [groups_strict, Bool.and_eq_true] at hg
    simp only [outcomes, List.mem_append] at h
    cases h with
    | inl h => exact iha hg.1 i o h gs ge hgr
    | inr h => exact ihb hg.2 i o h gs ge hgr
  | group a iha =>
    intro hg i o h gs ge hgr
    simp only [groups_strict, Bool.and_eq_true] at hg
    simp only [outcomes, List.mem_map] at h
    obtain ⟨o1, h1, rfl⟩ := h
    simp only [Option.some.injEq, Prod.mk.injEq] at hgr
    obtain ⟨rfl, rfl⟩ := hgr
    exact ⟨le_refl _, outcomes_stop_gt text a hg.1 i o1 h1, le_refl _⟩

theorem first_match_aux_spec (text : List Char) (re : RE) :
    ∀ fuel i j o, first_match_aux text re fuel i = some (j, o) →
      i ≤ j ∧ o ∈ outcomes text re j := by
  intro fuel
  induction fuel with
  | zero => intro i j o h; simp [first_match_aux] at h
  | succ n ih =>
    intro i j o h
    unfold first_match_aux at h
    cases hh : (outcomes text re i).head? with
    | some o1 =>
      rw [hh] at h
      simp only [Option.some.injEq, Prod.mk.injEq] at h
      obtain ⟨rfl, rfl⟩ := h
      exact ⟨le_refl _, List.mem_of_mem_head? (by simp [hh])⟩
    | none =>
      rw [hh] at h
      obtain ⟨h1, h2⟩ := ih (i + 1) j o h
      exact ⟨by omega, h2⟩

theorem captures_aux_spec (text : List Char) (re : RE) (hs : strictRE re = true)
    (hg : groups_strict re = true) :
    ∀ fuel start_, (∀ g ∈ captures_aux text re fuel start_, start_ ≤ g.1 ∧ g.1 < g.2) ∧
      List.Pairwise (fun a b => a.2 ≤ b.1) (captures_aux text re fuel start_) := by
  intro fuel
  induction fuel with
  | zero => intro s; simp [captures_aux]
  | succ n ih =>
    intro s
    unfold captures_aux
    cases hf : find_from text re s with
    | none => simp
    | some jo =>
      obtain ⟨j, o⟩ := jo
      obtain ⟨hsj, ho⟩ := first_match_aux_spec text re _ s j o hf
      have hjs : j < o.stop := outcomes_stop_gt text re hs j o ho
      have hnext : (if s < o.stop then o.stop else s + 1) = o.stop := if_pos (by omega)
      simp only [hnext]
      obtain ⟨ihb, ihp⟩ := ih o.stop
      cases hgr : o.grp with
      | none => exact ⟨fun g hmem => ⟨le_trans (by omega) (ihb g hmem).1, (ihb g hmem).2⟩, ihp⟩
      | some g =>
        obtain ⟨gs, ge⟩ := g
        obtain ⟨hg1, hg2, hg3⟩ := outcomes_grp_spec text re hg j o ho gs ge hgr
        constructor
        · intro g' hmem
          rcases List.mem_cons.mp hmem with rfl | hmem'
          · exact ⟨by omega, hg2⟩
          · exact ⟨le_trans (by omega) (ihb g' hmem').1, (ihb g' hmem').2⟩
        · exact List.Pairwise.cons (fun g' hmem' => le_trans (by omega) (ihb g' hmem').1) ihp

theorem captures_spec (text : List Char) (re : RE) (hs : strictRE re = true)
    (hg : groups_strict re = true) :
    (∀ g ∈ captures text re, g.1 < g.2) ∧
      List.Pairwise (fun a b => a.2 ≤ b.1) (captures text re) := by
  obtain ⟨hb, hp⟩ := captures_aux_spec text re hs hg (text.length + 1) 0
  exact ⟨fun g hmem => (hb g hmem).2, hp⟩

theorem extract_matches_spec (re : RE) (hs : strictRE re = true)
    (hg : groups_strict re = true) (text : List Char) :
    (∀ m ∈ extract_matches re text,
        m.2.1 < m.2.2 ∧ m.1 = (text.drop m.2.1).take (m.2.2 - m.2.1)) ∧
      List.Pairwise (fun a b => a.2.2 ≤ b.2.1) (extract_matches re text) := by
  obtain ⟨hb, hp⟩ := captures_spec text re hs hg
  constructor
  · intro m hmem
    simp only [extract_matches, List.mem_map] at hmem
    obtain ⟨g, hgmem, rfl⟩ := hmem
    exact ⟨hb g hgmem, rfl⟩
  · rw [extract_matches, List.pairwise_map]
    exact hp

theorem strict_PHONE : strictRE PHONE = true := by decide

theorem strict_ID_CARD : strictRE ID_CARD = true := by decide

theorem strict_BANK_CARD : strictRE BANK_CARD = true := by decide

theorem grps_PHONE : groups_strict PHONE = true := by decide

theorem grps_ID_CARD : groups_strict ID_CARD = true := by decide

theorem grps_BANK_CARD : groups_strict BANK_CARD = true := by decide

/-! ## Facts about the validators -/

theorem spec_luhn_from_right_append (xs : List Nat) :
    ∀ (ys : List Nat) (pos : Nat),
      spec_luhn_from_right pos (xs ++ ys) =
        spec_luhn_from_right pos xs + spec_luhn_from_right (pos + xs.length) ys := by
  induction xs with
  | nil => intro ys pos; simp [spec_luhn_from_right]
  | cons d rest ih =>
    intro ys pos
    rw [List.cons_append]
    rw [show spec_luhn_from_right pos (d :: (rest ++ ys)) =
      luhn_term pos d + spec_luhn_from_right (pos + 1) (rest ++ ys) from rfl]
    rw [show spec_luhn_from_right pos (d :: rest) =
      luhn_term pos d + spec_luhn_from_right (pos + 1) rest from rfl]
    rw [ih ys (pos + 1), List.length_cons]
    have : pos + 1 + rest.length = pos + (rest.length + 1) := by omega
    rw [this]
    omega

theorem luhn_sum_aux_eq_spec (ds : List Nat) :
    ∀ pos : Nat, spec_luhn_from_right pos ds.reverse = luhn_sum_aux (ds.length + pos - 1) ds := by
  induction ds with
  | nil => intro pos; simp [spec_luhn_from_right, luhn_sum_aux]
  | cons d rest ih =>
    intro pos
    rw [List.reverse_cons, spec_luhn_from_right_append, ih pos, List.length_reverse]
    rw [show spec_luhn_from_right (pos + rest.length) [d] =
      luhn_term (pos + rest.length) d + spec_luhn_from_right (pos + rest.length + 1) [] from rfl]
    rw [show spec_luhn_from_right (pos + rest.length + 1) ([] : List Nat) = 0 from rfl]
    rw [List.length_cons]
    rw [show luhn_sum_aux (rest.length + 1 + pos - 1) (d :: rest) =
      luhn_term (rest.length + 1 + pos - 1) d +
        luhn_sum_aux (rest.length + 1 + pos - 1 - 1) rest from rfl]
    have h1 : rest.length + 1 + pos - 1 = pos + rest.length := by omega
    rw [h1]
    rw [Nat.add_comm pos rest.length]
    omega

theorem clean_digits_all (s : List Char) : (clean_digits s).all Char.isDigit = true := by
  rw [List.all_eq_true]
  intro c hc
  exact (List.mem_filter.mp hc).2

theorem filterMap_to_digit_of_all (l : List Char) (h : l.all Char.isDigit = true) :
    l.filterMap to_digit = l.map (fun c => c.toNat - 48) := by
  induction l with
  | nil => rfl
  | cons c rest ih =>
    rw [List.all_cons, Bool.and_eq_true] at h
    rw [List.filterMap_cons, List.map_cons]
    have : to_digit c = some (c.toNat - 48) := by rw [to_digit, if_pos h.1]
    rw [this, ih h.2]

theorem luhn_check_of_all (l : List Char) (h : l.all Char.isDigit = true) :
    luhn_check l = decide (spec_luhn (l.map (fun c => c.toNat - 48))) := by
  have hmap := filterMap_to_digit_of_all l h
  have hspec : spec_luhn (l.map (fun c => c.toNat - 48)) ↔
      luhn_sum_aux (l.map (fun c => c.toNat - 48)).length (l.map (fun c => c.toNat - 48)) % 10
        = 0 := by
    unfold spec_luhn
    rw [luhn_sum_aux_eq_spec]
    rw [show (l.map (fun c => c.toNat - 48)).length + 1 - 1
      = (l.map (fun c => c.toNat - 48)).length from by omega]
  rw [luhn_check]
  simp only [hmap, List.length_map, ne_eq, not_true_eq_false, if_false]
  rw [decide_eq_decide]
  rw [hspec]
  simp

theorem all_take_getD (P : Char → Bool) :
    ∀ (s : List Char) (n : Nat), n ≤ s.length →
      ((s.take n).all P = true ↔ ∀ i, i < n → P (s.getD i ' ') = true) := by
  intro s
  induction s with
  | nil =>
    intro n hn
    simp only [List.length_nil, Nat.le_zero] at hn
    subst hn
    simp
  | cons c t ih =>
    intro n hn
    cases n with
    | zero => simp
    | succ m =>
      rw [List.take_succ_cons, List.all_cons, Bool.and_eq_true]
      rw [ih m (by simpa using hn)]
      constructor
      · rintro ⟨h0, hrest⟩ i hi
        cases i with
        | zero => simpa using h0
        | succ j => simpa using hrest j (by omega)
      · intro hall
        exact ⟨by simpa using hall 0 (by omega),
          fun j hj => by simpa using hall (j + 1) (by omega)⟩

theorem getD_drop_eq (s : List Char) :
    ∀ (a j : Nat), (s.drop a).getD j ' ' = s.getD (a + j) ' ' := by
  induction s with
  | nil => simp
  | cons c t ih =>
    intro a j
    cases a with
    | zero => simp
    | succ m =>
      rw [List.drop_succ_cons, ih m j]
      have : m + 1 + j = (m + j) + 1 := by omega
      rw [this, List.getD_cons_succ]

theorem slice_all_getD (P : Char → Bool) (s : List Char) (a b : Nat) (hab : a + b ≤ s.length) :
    (((s.drop a).take b).all P = true ↔ ∀ j, j < b → P (s.getD (a + j) ' ') = true) := by
  have hb : b ≤ (s.drop a).length := by
    rw [List.length_drop]
    omega
  rw [all_take_getD P (s.drop a) b hb]
  constructor
  · intro h j hj
    rw [← getD_drop_eq]
    exact h j hj
  · intro h j hj
    rw [getD_drop_eq]
    exact h j hj

theorem parse_slice (s : List Char) (a b : Nat) (hab : a + b ≤ s.length) (hb : 0 < b)
    (hdig : ∀ j, j < b → (s.getD (a + j) ' ').isDigit = true) :
    parse_nat ((s.drop a).take b) = some (digits_val ((s.drop a).take b)) := by
  have hlen : ((s.drop a).take b).length = b := by
    rw [List.length_take, List.length_drop]
    omega
  rw [parse_nat, if_pos]
  refine ⟨fun hnil => by rw [hnil] at hlen; simp at hlen; omega, ?_⟩
  rw [slice_all_getD Char.isDigit s a b hab]
  exact hdig

theorem checksum_fold_gen (s : List Char) :
    ∀ (l : List Nat) (a : Nat), (∀ i ∈ l, (s.getD i ' ').isDigit = true) →
      l.foldl (fun acc i => acc.bind (fun x => (to_digit (s.getD i ' ')).map
          (fun d => x + d * ID_WEIGHTS.getD i 0))) (some a)
        = some (a + (l.map (fun i => ((s.getD i ' ').toNat - 48) * ID_WEIGHTS.getD i 0)).sum) := by
  intro l
  induction l with
  | nil => intro a _; simp
  | cons i rest ih =>
    intro a hdig
    rw [List.foldl_cons]
    have hi : to_digit (s.getD i ' ') = some ((s.getD i ' ').toNat - 48) := by
      rw [to_digit, if_pos (hdig i (List.mem_cons_self i rest))]
    rw [show (some a).bind (fun x => (to_digit (s.getD i ' ')).map
        (fun d => x + d * ID_WEIGHTS.getD i 0))
      = (to_digit (s.getD i ' ')).map (fun d => a + d * ID_WEIGHTS.getD i 0) from rfl]
    rw [hi]
    rw [show (some ((s.getD i ' ').toNat - 48)).map (fun d => a + d * ID_WEIGHTS.getD i 0)
      = some (a + ((s.getD i ' ').toNat - 48) * ID_WEIGHTS.getD i 0) from rfl]
    rw [ih (a + ((s.getD i ' ').toNat - 48) * ID_WEIGHTS.getD i 0)
      (fun j hj => hdig j (List.mem_cons_of_mem i hj))]
    rw [List.map_cons, List.sum_cons]
    congr 1
    omega

theorem checksum_fold_of_digits (s : List Char)
    (hdig : ∀ i, i < 17 → (s.getD i ' ').isDigit = true) :
    checksum_fold s =
      some (((List.range 17).map
        (fun i => ((s.getD i ' ').toNat - 48) * ID_WEIGHTS.getD i 0)).sum) := by
  rw [checksum_fold, checksum_fold_gen s (List.range 17) 0
    (fun i hi => hdig i (List.mem_range.mp hi))]
  rw [Nat.zero_add]

theorem verify_checksum_iff (s : List Char)
    (hdig : ∀ i, i < 17 → (s.getD i ' ').isDigit = true) :
    (verify_id_card_checksum s = true ↔ (s.getD 17 ' ').toUpper = spec_id_check_char s) := by
  unfold verify_id_card_checksum
  rw [checksum_fold_of_digits s hdig]
  constructor
  · intro h
    rw [spec_id_check_char]
    exact of_decide_eq_true h
  · intro h
    rw [spec_id_check_char] at h
    exact decide_eq_true h

theorem days_in_month_eq_spec (y m : Nat) (h1 : 1 ≤ m) (h2 : m ≤ 12) :
    days_in_month y m = spec_days_in_month y m := by
  interval_cases m <;> simp [days_in_month, spec_days_in_month, spec_leap]

theorem verify_birth_date_iff (s : List Char) (hlen : s.length = 18)
    (hdig : ∀ i, i < 17 → (s.getD i ' ').isDigit = true) :
    (verify_id_card_birth_date s = true ↔
      ((1900 ≤ spec_year s ∧ spec_year s ≤ 2099) ∧
       (1 ≤ spec_month s ∧ spec_month s ≤ 12) ∧
       (1 ≤ spec_day s ∧ spec_day s ≤ spec_days_in_month (spec_year s) (spec_month s)))) := by
  have hy : parse_nat ((s.drop 6).take 4) = some (spec_year s) :=
    parse_slice s 6 4 (by omega) (by omega) (fun j hj => hdig (6 + j) (by omega))
  have hm : parse_nat ((s.drop 10).take 2) = some (spec_month s) :=
    parse_slice s 10 2 (by omega) (by omega) (fun j hj => hdig (10 + j) (by omega))
  have hd : parse_nat ((s.drop 12).take 2) = some (spec_day s) :=
    parse_slice s 12 2 (by omega) (by omega) (fun j hj => hdig (12 + j) (by omega))
  rw [verify_id_card_birth_date, hy, hm, hd]
  by_cases hA : 1900 ≤ spec_year s ∧ spec_year s ≤ 2099
  · by_cases hB : 1 ≤ spec_month s ∧ spec_month s ≤ 12
    · simp only [hA, hB, not_true_eq_false, if_false]
      rw [days_in_month_eq_spec (spec_year s) (spec_month s) hB.1 hB.2]
      simp [hA, hB]
    · simp [hA, hB]
  · simp [hA]

/-! ## Claim theorems: validators -/

/-- C2: for every string whose digit content after stripping non-digits has
length 16–19, `validate_bank_card` is true exactly when the spec's Luhn
predicate (rightmost digit at position 1, every even position doubled, 9
subtracted from doubled values above 9, total divisible by 10) holds of the
digit string; for every other stripped length it is false. -/
theorem claim_C2_validate_bank_card_luhn (s : List Char) :
    (16 ≤ (clean_digits s).length ∧ (clean_digits s).length ≤ 19 →
      (validate_bank_card s = true ↔ spec_luhn ((clean_digits s).map (fun c => c.toNat - 48)))) ∧
    (¬ (16 ≤ (clean_digits s).length ∧ (clean_digits s).length ≤ 19) →
      validate_bank_card s = false) := by
  constructor
  · intro hr
    have hall := clean_digits_all s
    simp only [validate_bank_card, hr, not_true_eq_false, if_false, hall, if_neg]
    rw [luhn_check_of_all _ hall]
    simp
  · intro hr
    simp only [validate_bank_card, hr, not_false_eq_true, if_pos]

/-- C2 witness: the stripped digits of `"4111 1111 1111 1111"` number 16,
and the equivalence holds there with both sides true. -/
theorem claim_C2_witness :
    (16 ≤ (clean_digits "4111 1111 1111 1111".toList).length ∧
      (clean_digits "4111 1111 1111 1111".toList).length ≤ 19) ∧
    validate_bank_card "4111 1111 1111 1111".toList = true := by
  have h : 16 ≤ (clean_digits "4111 1111 1111 1111".toList).length ∧
      (clean_digits "4111 1111 1111 1111".toList).length ≤ 19 := by decide
  exact ⟨h, ((claim_C2_validate_bank_card_luhn "4111 1111 1111 1111".toList).1 h).mpr
    (by decide)⟩

/-- C4: `validate_phone` is true exactly when the string's non-digit-stripped
content is 11 digits beginning with `1` and a second digit in `3..=9`. -/
theorem claim_C4_validate_phone (s : List Char) :
    validate_phone s = true ↔
      ((clean_digits s).length = 11 ∧ (clean_digits s).getD 0 ' ' = '1' ∧
       '3' ≤ (clean_digits s).getD 1 ' ' ∧ (clean_digits s).getD 1 ' ' ≤ '9') := by
  by_cases hlen : (clean_digits s).length = 11
  · have hall := clean_digits_all s
    rcases hc : clean_digits s with _ | ⟨c1, tail⟩
    · rw [hc] at hlen; simp at hlen
    · rcases tail with _ | ⟨c2, rest⟩
      · rw [hc] at hlen; simp at hlen
      · rw [hc] at hlen hall
        simp only [validate_phone, hc, hlen, hall]
        simp [Bool.and_eq_true, decide_eq_true_eq, and_assoc]
  · have : validate_phone s = false := by
      simp only [validate_phone]
      rw [if_pos hlen]
    rw [this]
    simp [hlen]

/-- C4 witness: `"138-1234-5678"` strips to 11 digits with the required
prefix, and `validate_phone` accepts it. -/
theorem claim_C4_witness :
    validate_phone "138-1234-5678".toList = true :=
  (claim_C4_validate_phone "138-1234-5678".toList).mpr (by decide)

/-- C3: `validate_id_card` accepts a string exactly when it has 18
characters, 17 leading ASCII digits, a digit-or-`X`/`x` final character
matching the weighted mod-11 check character case-insensitively, and a
calendar-valid birth date (year 1900–2099, month 1–12, day within the
month's length under the standard leap-year rule). -/
theorem claim_C3_validate_id_card (s : List Char) :
    validate_id_card s = true ↔ spec_id_valid s := by
  by_cases hlen : s.length = 18
  · by_cases hdig17 : (s.take 17).all Char.isDigit = true
    · have hdig : ∀ i, i < 17 → (s.getD i ' ').isDigit = true :=
        (all_take_getD Char.isDigit s 17 (by omega)).mp hdig17
      rw [show validate_id_card s =
          (if ¬ ((s.getD 17 ' ').isDigit || (s.getD 17 ' ') = 'X' || (s.getD 17 ' ') = 'x')
            then false
            else if ¬ verify_id_card_checksum s then false
            else verify_id_card_birth_date s) from by
        unfold validate_id_card
        rw [if_neg (by omega), if_neg (by rw [hdig17]; simp)]]
      by_cases hlast : ((s.getD 17 ' ').isDigit = true ∨ (s.getD 17 ' ') = 'X' ∨
          (s.getD 17 ' ') = 'x')
      · have hlb : ((s.getD 17 ' ').isDigit || (s.getD 17 ' ') = 'X' ||
            (s.getD 17 ' ') = 'x') = true := by
          simp only [Bool.or_eq_true, decide_eq_true_eq, or_assoc]
          exact hlast
        rw [if_neg (by rw [hlb]; simp)]
        by_cases hchk : verify_id_card_checksum s = true
        · rw [if_neg (by rw [hchk]; simp)]
          rw [verify_birth_date_iff s hlen hdig]
          have hchk2 := (verify_checksum_iff s hdig).mp hchk
          constructor
          · intro hdate
            exact ⟨hlen, hdig, hlast, hchk2, hdate.1, hdate.2.1, hdate.2.2⟩
          · intro hspec
            exact ⟨hspec.2.2.2.2.1, hspec.2.2.2.2.2.1, hspec.2.2.2.2.2.2⟩
        · rw [if_pos (by simpa using hchk)]
          have : ¬ ((s.getD 17 ' ').toUpper = spec_id_check_char s) := by
            intro hcontra
            exact hchk ((verify_checksum_iff s hdig).mpr hcontra)
          simp only [spec_id_valid]
          constructor
          · intro h; simp at h
          · intro hspec; exact absurd hspec.2.2.2.1 this
      · rw [if_pos (fun hcontra => hlast
          (by simpa [Bool.or_eq_true, decide_eq_true_eq, or_assoc] using hcontra))]
        simp only [spec_id_valid]
        constructor
        · intro h; simp at h
        · intro hspec; exact absurd hspec.2.2.1 hlast
    · have h1 : validate_id_card s = false := by
        unfold validate_id_card
        rw [if_neg (by omega), if_pos hdig17]
      rw [h1]
      have h2 : ¬ ∀ i, i < 17 → (s.getD i ' ').isDigit = true := by
        rw [← all_take_getD Char.isDigit s 17 (by omega)]
        exact hdig17
      simp only [spec_id_valid]
      constructor
      · intro h; simp at h
      · intro hspec; exact absurd hspec.2.1 h2
  · have h1 : validate_id_card s = false := by
      unfold validate_id_card
      rw [if_pos hlen]
    rw [h1]
    simp only [spec_id_valid]
    constructor
    · intro h; simp at h
    · intro hspec; exact absurd hspec.1 hlen

/-- C3 witness: the identifier `110105199003072039` (valid checksum and
date) is accepted, via the characterization. -/
theorem claim_C3_witness :
    validate_id_card "110105199003072039".toList = true :=
  (claim_C3_validate_id_card "110105199003072039".toList).mpr (by decide)

/-! ## Claim theorems: the extraction coordinator -/

theorem info_phones_eq (config : Config) (text : List Char) :
    (info_extract config text).1 =
      if config.enable_phone then info_extract_phones text else [] := rfl

theorem info_ids_eq (config : Config) (text : List Char) :
    (info_extract config text).2.1 =
      if config.enable_id_card then info_extract_id_cards text else [] := rfl

theorem info_banks_eq (config : Config) (text : List Char) :
    (info_extract config text).2.2 =
      if config.enable_bank_card then
        extract_bank_cards_filtered text (valid_id_positions config text)
      else [] := rfl

theorem mem_info_list {l : List (List Char × Nat × Nat)} {f : List Char → Bool} {m : MatchInfo}
    (h : m ∈ l.map (fun t => MatchInfo.new t.1 (f t.1) t.2.1 t.2.2)) :
    ∃ t, t ∈ l ∧ m.value = t.1 ∧ m.is_valid = f t.1 ∧ m.position = (t.2.1, t.2.2) := by
  obtain ⟨t, ht, rfl⟩ := List.mem_map.mp h
  exact ⟨t, ht, rfl, rfl, rfl⟩

theorem mapped_matches_spec (re : RE) (hs : strictRE re = true) (hg : groups_strict re = true)
    (text : List Char) (f : List Char → Bool) (l : List (List Char × Nat × Nat))
    (hsub : ∀ t ∈ l, t ∈ extract_matches re text) :
    ∀ m ∈ l.map (fun t => MatchInfo.new t.1 (f t.1) t.2.1 t.2.2),
      m.position.1 < m.position.2 ∧
        m.value = (text.drop m.position.1).take (m.position.2 - m.position.1) := by
  intro m hm
  obtain ⟨t, ht, hv, _, hpos⟩ := mem_info_list hm
  obtain ⟨hlt, hslice⟩ := (extract_matches_spec re hs hg text).1 t (hsub t ht)
  rw [hpos, hv]
  exact ⟨hlt, hslice⟩

/-- C9: every match the coordinator produces in the phone, ID-card and
bank-card categories has `start < end`, and the slice of the source text at
`[start, end)` is exactly the match's value. -/
theorem claim_C9_match_position_invariant (config : Config) (text : List Char) :
    (∀ m ∈ (info_extract config text).1, m.position.1 < m.position.2 ∧
        m.value = (text.drop m.position.1).take (m.position.2 - m.position.1)) ∧
    (∀ m ∈ (info_extract config text).2.1, m.position.1 < m.position.2 ∧
        m.value = (text.drop m.position.1).take (m.position.2 - m.position.1)) ∧
    (∀ m ∈ (info_extract config text).2.2, m.position.1 < m.position.2 ∧
        m.value = (text.drop m.position.1).take (m.position.2 - m.position.1)) := by
  refine ⟨?_, ?_, ?_⟩
  · intro m hm
    rw [info_phones_eq] at hm
    split at hm
    · exact mapped_matches_spec PHONE strict_PHONE grps_PHONE text validate_phone
        (extract_matches PHONE text) (fun t ht => ht) m hm
    · simp at hm
  · intro m hm
    rw [info_ids_eq] at hm
    split at hm
    · exact mapped_matches_spec ID_CARD strict_ID_CARD grps_ID_CARD text validate_id_card
        (extract_matches ID_CARD text) (fun t ht => ht) m hm
    · simp at hm
  · intro m hm
    rw [info_banks_eq] at hm
    split at hm
    · exact mapped_matches_spec BANK_CARD strict_BANK_CARD grps_BANK_CARD text
        validate_bank_card _ (fun t ht => (List.mem_filter.mp ht).1) m hm
    · simp at hm

/-- C9 witness: concrete matches of the three categories at their reported
spans, with the slice equalities evaluated. -/
theorem claim_C9_witness :
    ((1 : Nat) < 12 ∧
      "13812345678".toList = ("a13812345678b".toList.drop 1).take (12 - 1)) ∧
    ((1 : Nat) < 19 ∧
      "110105199003072039".toList = ("a110105199003072039b".toList.drop 1).take (19 - 1)) ∧
    ((1 : Nat) < 17 ∧
      "4111111111111111".toList = ("a4111111111111111b".toList.drop 1).take (17 - 1)) :=
  ⟨(claim_C9_match_position_invariant ⟨2, [], true, true, true⟩ "a13812345678b".toList).1
      (MatchInfo.new "13812345678".toList true 1 12) (by decide),
   (claim_C9_match_position_invariant ⟨2, [], true, true, true⟩
        "a110105199003072039b".toList).2.1
      (MatchInfo.new "110105199003072039".toList true 1 19) (by decide),
   (claim_C9_match_position_invariant ⟨2, [], true, true, true⟩
        "a4111111111111111b".toList).2.2
      (MatchInfo.new "4111111111111111".toList true 1 17) (by decide)⟩

/-- C1: no bank-card match the coordinator returns overlaps the span of a
valid ID-card match of the same text, and a raw bank-card candidate whose
span overlaps no valid ID-card match survives the filter and is returned
with its Luhn verdict. -/
theorem claim_C1_bank_id_exclusion (config : Config) (text : List Char) :
    (∀ b ∈ (info_extract config text).2.2, ∀ idm ∈ (info_extract config text).2.1,
        idm.is_valid = true →
        ¬ (b.position.1 < idm.position.2 ∧ idm.position.1 < b.position.2)) ∧
    (∀ v s e, config.enable_bank_card = true → (v, s, e) ∈ extract_bank_cards text →
        (∀ idm ∈ (info_extract config text).2.1, idm.is_valid = true →
          ¬ (s < idm.position.2 ∧ idm.position.1 < e)) →
        MatchInfo.new v (validate_bank_card v) s e ∈ (info_extract config text).2.2) := by
  have hvalid_mem : ∀ idm ∈ (info_extract config text).2.1, idm.is_valid = true →
      idm.position ∈ valid_id_positions config text := by
    intro idm hidm hval
    rw [info_ids_eq] at hidm
    exact List.mem_map.mpr ⟨idm, List.mem_filter.mpr ⟨hidm, by simp [hval]⟩, rfl⟩
  have hmem_valid : ∀ p ∈ valid_id_positions config text,
      ∃ idm ∈ (info_extract config text).2.1, idm.is_valid = true ∧ idm.position = p := by
    intro p hp
    obtain ⟨idm, hidm, rfl⟩ := List.mem_map.mp hp
    obtain ⟨hmem, hval⟩ := List.mem_filter.mp hidm
    exact ⟨idm, by rw [info_ids_eq]; exact hmem, by simpa using hval, rfl⟩
  constructor
  · intro b hb idm hidm hval hover
    rw [info_banks_eq] at hb
    split at hb
    · obtain ⟨t, ht, _, _, hpos⟩ := mem_info_list hb
      have hfilter := (List.mem_filter.mp ht).2
      rw [Bool.not_eq_eq_eq_not, Bool.not_true, List.any_eq_false] at hfilter
      have := hfilter idm.position (hvalid_mem idm hidm hval)
      rw [hpos] at hover
      simp only [Bool.and_eq_true, decide_eq_true_eq, not_and] at this
      exact absurd (this hover.1) (by simpa using hover.2)
    · simp at hb
  · intro v s e henb hraw hno
    rw [info_banks_eq, if_pos henb]
    rw [extract_bank_cards_filtered]
    refine List.mem_map.mpr ⟨(v, s, e), List.mem_filter.mpr ⟨hraw, ?_⟩, rfl⟩
    rw [Bool.not_eq_eq_eq_not, Bool.not_true, List.any_eq_false]
    intro p hp
    obtain ⟨idm, hidm, hval, hpos⟩ := hmem_valid p hp
    have := hno idm hidm hval
    rw [hpos] at this
    simp only [Bool.and_eq_true, decide_eq_true_eq, not_and]
    intro h1 h2
    exact this ⟨h1, h2⟩

/-- C1 witness: in a text carrying a valid ID number and a separate bank
card number, the returned card match does not overlap the valid ID match,
and the non-overlapping raw candidate is returned validated. -/
theorem claim_C1_witness :
    (¬ ((21 : Nat) < 19 ∧ (1 : Nat) < 37)) ∧
    MatchInfo.new "4111111111111111".toList (validate_bank_card "4111111111111111".toList) 21 37
      ∈ (info_extract ⟨2, [], true, true, true⟩
          "a110105199003072039  4111111111111111b".toList).2.2 :=
  ⟨(claim_C1_bank_id_exclusion ⟨2, [], true, true, true⟩
        "a110105199003072039  4111111111111111b".toList).1
      (MatchInfo.new "4111111111111111".toList true 21 37) (by decide)
      (MatchInfo.new "110105199003072039".toList true 1 19) (by decide) (by decide),
   (claim_C1_bank_id_exclusion ⟨2, [], true, true, true⟩
        "a110105199003072039  4111111111111111b".toList).2
      "4111111111111111".toList 21 37 (by decide) (by decide) (by decide)⟩

theorem isWhitespace_not_digit (c : Char) (h : c.isWhitespace = true) : c.isDigit = false := by
  simp only [Char.isWhitespace, Bool.or_eq_true, decide_eq_true_eq, or_assoc] at h
  rcases h with rfl | rfl | rfl | rfl <;> decide

theorem validate_phone_cc_false (v : List Char) (h : has_cc_prefix v) :
    validate_phone v = false := by
  obtain ⟨plus, sep, rest, hplus, hsep, hv, hrest⟩ := h
  have hplus_clean : plus.filter Char.isDigit = [] := by
    rcases hplus with rfl | rfl <;> decide
  have hsep_clean : sep.filter Char.isDigit = [] := by
    rcases hsep with rfl | ⟨c, rfl, hc⟩
    · rfl
    · rcases hc with rfl | hws
      · decide
      · simp [List.filter_cons, isWhitespace_not_digit c hws]
  have hclean : clean_digits v = '8' :: '6' :: clean_digits rest := by
    rw [hv, clean_digits, List.filter_append, hplus_clean, List.nil_append]
    rw [List.filter_cons, List.filter_cons]
    rw [List.filter_append, hsep_clean, List.nil_append]
    rfl
  simp only [validate_phone]
  rw [if_pos]
  rw [hclean]
  simp only [List.length_cons, hrest]
  omega

/-- C10: a phone match whose captured value carries the `+86`/`86` country
prefix is always flagged invalid, because stripping leaves 13 digits
rather than the required 11. -/
theorem claim_C10_cc_prefix_invalid (config : Config) (text : List Char) :
    ∀ m ∈ (info_extract config text).1, has_cc_prefix m.value → m.is_valid = false := by
  intro m hm hpre
  rw [info_phones_eq] at hm
  split at hm
  · obtain ⟨t, _, hv, hval, _⟩ := mem_info_list hm
    rw [hval, ← hv]
    exact validate_phone_cc_false m.value hpre
  · simp at hm

/-- C10 witness: the captured value `+8613812345678` is rejected by the
validator, via the claim applied to the match the extractor returns on
that text. -/
theorem claim_C10_witness :
    validate_phone "+8613812345678".toList = false :=
  claim_C10_cc_prefix_invalid ⟨2, [], true, true, true⟩ "+8613812345678".toList
    (MatchInfo.new "+8613812345678".toList (validate_phone "+8613812345678".toList) 0 14)
    (by decide)
    ⟨['+'], [], "13812345678".toList, Or.inr rfl, Or.inl rfl, rfl, by decide⟩

/-! ## Claim theorems: the pattern scanners (C5) -/

/-- C5 counterexample: in `"13812345678,15912345678"` the suffix starting
at position 12 is a valid phone occurrence bounded by a non-digit on the
left and the string edge on the right, yet `extract_phones` returns only
the first occurrence — the comma was consumed as the first match's
trailing boundary. -/
theorem claim_C5_counterexample :
    ("13812345678,15912345678".toList.getD 11 ' ').isDigit = false ∧
    "13812345678,15912345678".toList.drop 12 = "15912345678".toList ∧
    validate_phone "15912345678".toList = true ∧
    extract_phones "13812345678,15912345678".toList =
      [("13812345678".toList, 0, 11)] := by
  refine ⟨by decide, by decide, by decide, by decide⟩

/-- C5 amended: all three scanners return strictly left-to-right,
non-overlapping matches, but an occurrence is only found when its leading
non-digit boundary has not been consumed by the previous match; with two
separating non-digit characters both phone occurrences are returned. -/
theorem claim_C5_amended_ordering (text : List Char) :
    (List.Pairwise (fun a b => a.2.2 ≤ b.2.1) (extract_phones text) ∧
     List.Pairwise (fun a b => a.2.2 ≤ b.2.1) (extract_id_cards text) ∧
     List.Pairwise (fun a b => a.2.2 ≤ b.2.1) (extract_bank_cards text)) ∧
    (∀ m ∈ extract_phones text, m.2.1 < m.2.2) ∧
    extract_phones "13812345678,,15912345678".toList =
      [("13812345678".toList, 0, 11), ("15912345678".toList, 13, 24)] := by
  refine ⟨⟨?_, ?_, ?_⟩, ?_, by decide⟩
  · exact (extract_matches_spec PHONE strict_PHONE grps_PHONE text).2
  · exact (extract_matches_spec ID_CARD strict_ID_CARD grps_ID_CARD text).2
  · exact (extract_matches_spec BANK_CARD strict_BANK_CARD grps_BANK_CARD text).2
  · intro m hm
    exact ((extract_matches_spec PHONE strict_PHONE grps_PHONE text).1 m hm).1

/-- C5 amended witness: the ordering facts instantiated on the double-comma
text, discharging the membership hypothesis on its first match. -/
theorem claim_C5_amended_witness :
    (0 : Nat) < 11 :=
  (claim_C5_amended_ordering "13812345678,,15912345678".toList).2.1
    ("13812345678".toList, 0, 11) (by decide)

/-! ## Claim theorems: the file processor -/

/-- C6: evaluation of the processor at a concrete sheet.  The header is row
0, the phone-bearing cell is data row index 2, and `context_lines = 1`.
`get_context` receives the absolute row index but reads `rows[idx - i]`
for `idx = row_index + 1`, so the emitted `context_before` is the matching
row's own text (instead of the preceding row `"aaa"`) and `context_after`
is empty (instead of the following row `"ccc"`): the caller's absolute
index is treated as a header-relative one, an off-by-one. -/
theorem claim_C6_context_off_by_one :
    process_file ⟨1, "消息内容".toList, true, true, true⟩ "f".toList
        (Except.ok [("S".toList, Except.ok ⟨[["消息内容".toList],
          ["aaa".toList], ["tel 13812345678".toList], ["ccc".toList]]⟩)])
      = Except.ok [⟨"f".toList, "S".toList, 3,
          [MatchInfo.new "13812345678".toList true 4 15], [], [],
          "tel 13812345678".toList,
          ["tel 13812345678".toList], []⟩] := by
  rfl

theorem progress_value_mono (total : Nat) {x y : Nat} (h : x ≤ y) :
    progress_value total x ≤ progress_value total y :=
  min_le_min (Nat.div_le_div_right (Nat.mul_le_mul_right 100 h)) le_rfl

theorem progress_value_le (total n : Nat) : progress_value total n ≤ 100 :=
  min_le_right _ _

theorem get?_set_self {α : Type} (l : List α) :
    ∀ (j : Nat) (w : α), j < l.length → (l.set j w).get? j = some w := by
  induction l with
  | nil => intro j w h; simp at h
  | cons x xs ih =>
    intro j w h
    cases j with
    | zero => rfl
    | succ m =>
      have hstep : ((x :: xs).set (m + 1) w).get? (m + 1) = (xs.set m w).get? m := rfl
      rw [hstep]
      exact ih m w (by simpa using h)

theorem get?_set_other {α : Type} (l : List α) :
    ∀ (i j : Nat) (w : α), i ≠ j → (l.set j w).get? i = l.get? i := by
  induction l with
  | nil => intro i j w _; simp
  | cons x xs ih =>
    intro i j w hne
    cases j with
    | zero =>
      cases i with
      | zero => exact absurd rfl hne
      | succ m => rfl
    | succ n =>
      cases i with
      | zero => rfl
      | succ m =>
        have hstep : ((x :: xs).set (n + 1) w).get? (m + 1) = (xs.set n w).get? m := rfl
        rw [hstep]
        exact ih m n w (fun hc => hne (by rw [hc]))

theorem worker_reports_out (c : Nat) (ws : List WorkerState) (out : List (Nat × Nat))
    (i : Nat) :
    worker_reports ⟨c, ws, out⟩ i = (out.filter (fun e => e.1 = i)).map (fun e => e.2) := rfl

theorem run_inv_step (total : Nat) (st : RunState) (hinv : run_inv total st) (k : Nat) :
    run_inv total (sched_step total st k) := by
  cases hw : st.workers.get? k with
  | none =>
    have hstep : sched_step total st k = st := by
      unfold sched_step
      rw [hw]
    rw [hstep]
    exact hinv
  | some w =>
    obtain ⟨hlen, _⟩ := List.get?_eq_some.mp hw
    cases hp : w.pending with
    | some p =>
      have hstep : sched_step total st k
          = ⟨st.counter, st.workers.set k ⟨none, w.batches⟩, st.output ++ [(k, p)]⟩ := by
        unfold sched_step
        rw [hw]
        simp [hp]
      rw [hstep]
      obtain ⟨hlastp, hple⟩ := (hinv k).2.2 w hw p hp
      intro i
      by_cases hik : i = k
      · subst hik
        have hrep : worker_reports ⟨st.counter, st.workers.set i ⟨none, w.batches⟩,
              st.output ++ [(i, p)]⟩ i = worker_reports st i ++ [p] := by
          rw [worker_reports_out, List.filter_append, List.map_append]
          simp [worker_reports]
        refine ⟨?_, ?_, ?_⟩
        · rw [hrep, List.chain'_append]
          refine ⟨(hinv i).1, List.chain'_singleton p, ?_⟩
          intro x hx y hy
          simp only [List.head?_cons, Option.mem_def, Option.some.injEq] at hy
          subst hy
          exact hlastp x hx
        · rw [hrep]
          intro q hq
          rw [List.getLast?_concat] at hq
          simp only [Option.mem_def, Option.some.injEq] at hq
          subst hq
          exact hple
        · intro w' hw' p' hp'
          rw [show (RunState.mk st.counter (st.workers.set i ⟨none, w.batches⟩)
              (st.output ++ [(i, p)])).workers = st.workers.set i ⟨none, w.batches⟩ from rfl,
            get?_set_self st.workers i _ hlen] at hw'
          simp only [Option.some.injEq] at hw'
          subst hw'
          simp at hp'
      · have hki : ¬ k = i := fun hc => hik hc.symm
        have hrep : worker_reports ⟨st.counter, st.workers.set k ⟨none, w.batches⟩,
              st.output ++ [(k, p)]⟩ i = worker_reports st i := by
          rw [worker_reports_out, List.filter_append, List.map_append]
          simp [worker_reports, hki]
        refine ⟨?_, ?_, ?_⟩
        · rw [hrep]; exact (hinv i).1
        · rw [hrep]; exact (hinv i).2.1
        · intro w' hw' p' hp'
          rw [hrep]
          rw [show (RunState.mk st.counter (st.workers.set k ⟨none, w.batches⟩)
              (st.output ++ [(k, p)])).workers = st.workers.set k ⟨none, w.batches⟩ from rfl,
            get?_set_other st.workers i k _ hik] at hw'
          exact (hinv i).2.2 w' hw' p' hp'
    | none =>
      cases hb : w.batches with
      | nil =>
        have hstep : sched_step total st k = st := by
          unfold sched_step
          rw [hw]
          simp [hp, hb]
        rw [hstep]
        exact hinv
      | cons b rest =>
        have hstep : sched_step total st k
            = ⟨st.counter + b,
               st.workers.set k ⟨some (progress_value total (st.counter + b)), rest⟩,
               st.output⟩ := by
          unfold sched_step
          rw [hw]
          simp [hp, hb]
        rw [hstep]
        intro i
        have hmono : progress_value total st.counter
            ≤ progress_value total (st.counter + b) :=
          progress_value_mono total (by omega)
        have hrep : worker_reports ⟨st.counter + b,
              st.workers.set k ⟨some (progress_value total (st.counter + b)), rest⟩,
              st.output⟩ i = worker_reports st i := rfl
        refine ⟨?_, ?_, ?_⟩
        · rw [hrep]; exact (hinv i).1
        · rw [hrep]
          intro q hq
          exact le_trans ((hinv i).2.1 q hq) hmono
        · intro w' hw' p' hp'
          rw [hrep]
          rw [show (RunState.mk (st.counter + b)
              (st.workers.set k ⟨some (progress_value total (st.counter + b)), rest⟩)
              st.output).workers
            = st.workers.set k ⟨some (progress_value total (st.counter + b)), rest⟩ from rfl]
            at hw'
          by_cases hik : i = k
          · subst hik
            rw [get?_set_self st.workers i _ hlen] at hw'
            simp only [Option.some.injEq] at hw'
            subst hw'
            simp only [Option.some.injEq] at hp'
            subst hp'
            exact ⟨fun q hq => le_trans ((hinv i).2.1 q hq) hmono, le_refl _⟩
          · rw [get?_set_other st.workers i k _ hik] at hw'
            obtain ⟨h1, h2⟩ := (hinv i).2.2 w' hw' p' hp'
            exact ⟨h1, le_trans h2 hmono⟩

theorem run_inv_initial (total : Nat) (ws : List (List Nat)) :
    run_inv total ⟨0, ws.map (fun bs => ⟨none, bs⟩), []⟩ := by
  intro i
  refine ⟨by simp [worker_reports], by simp [worker_reports], ?_⟩
  intro w hw p hp
  rw [show (RunState.mk 0 (ws.map (fun bs => ⟨none, bs⟩)) []).workers
      = ws.map (fun bs => ⟨none, bs⟩) from rfl] at hw
  rw [List.get?_eq_getElem?, List.getElem?_map, ← List.get?_eq_getElem?] at hw
  cases hws : ws.get? i with
  | none => rw [hws] at hw; simp at hw
  | some bs =>
    rw [hws] at hw
    simp only [Option.map_some', Option.some.injEq] at hw
    subst hw
    simp at hp

theorem run_inv_holds (total : Nat) (ws : List (List Nat)) (schedule : List Nat) :
    run_inv total (sched_run total (ws.map (fun bs => ⟨none, bs⟩)) schedule) := by
  rw [sched_run]
  have h : ∀ (sch : List Nat) (st : RunState), run_inv total st →
      run_inv total (sch.foldl (sched_step total) st) := by
    intro sch
    induction sch with
    | nil => intro st hst; exact hst
    | cons a rest ih => intro st hst; exact ih _ (run_inv_step total st hst a)
  exact h schedule _ (run_inv_initial total ws)

/-- C7 counterexample: two workers of 100 rows each over a 200-row total;
both perform their `fetch_add` before either invokes the callback, and the
worker holding the larger count delivers first — an interleaving the
source permits, since nothing synchronizes the `fetch_add` with the
callback call that follows it.  The percents passed to the callback are
0, 100, 50, 100: the sequence decreases, refuting the claimed
monotonicity. -/
theorem claim_C7_counterexample :
    run_reports 200 [⟨none, [100]⟩, ⟨none, [100]⟩] [0, 1, 1, 0] = [0, 100, 50, 100] ∧
    ¬ List.Chain' (· ≤ ·)
        (run_reports 200 [⟨none, [100]⟩, ⟨none, [100]⟩] [0, 1, 1, 0]) := by
  refine ⟨rfl, ?_⟩
  intro hc
  rw [show run_reports 200 [⟨none, [100]⟩, ⟨none, [100]⟩] [0, 1, 1, 0]
      = [0, 100, 50, 100] from rfl] at hc
  rw [List.chain'_cons, List.chain'_cons] at hc
  obtain ⟨-, h2, -⟩ := hc
  omega

/-- C7 amended: the final value passed to the callback is exactly 100 (the
closing call follows the parallel join); with zero total rows the reports
are exactly 0 then 100 and every file is still processed to its own
result; and each single worker's successive callback values are
non-decreasing, its percents being computed from its own `fetch_add`s of
the monotone shared counter — across workers, deliveries may be reordered
(see the counterexample), so only the per-worker subsequences are ordered. -/
theorem claim_C7_progress_amended (total : Nat) (ws : List (List Nat)) (schedule : List Nat)
    (config : Config) (files : List (List Char × FileInput)) :
    (∀ i, List.Chain' (· ≤ ·)
        (worker_reports (sched_run total (ws.map (fun bs => ⟨none, bs⟩)) schedule) i)) ∧
    (run_reports total (ws.map (fun bs => ⟨none, bs⟩)) schedule).getLast? = some 100 ∧
    (total = 0 → run_reports total (ws.map (fun bs => ⟨none, bs⟩)) schedule = [0, 100]) ∧
    (∀ f ∈ files, (f.1, process_file config f.1 f.2) ∈ process_files config files) := by
  refine ⟨fun i => (run_inv_holds total ws schedule i).1, ?_, ?_,
    fun f hf => List.mem_map.mpr ⟨f, hf, rfl⟩⟩
  · rw [run_reports]
    by_cases h0 : total = 0
    · rw [if_pos h0]
      rfl
    · rw [if_neg h0]
      exact List.getLast?_concat _
  · intro h0
    rw [run_reports, if_pos h0]

/-- C7 amended witness: a delivered per-worker subsequence on the
counterexample's schedule is non-decreasing, the zero-total reports are
`[0, 100]`, and a file given as an open failure is still carried to its
own (error) result. -/
theorem claim_C7_amended_witness :
    List.Chain' (· ≤ ·)
      (worker_reports
        (sched_run 200 ([[100], [100]].map (fun bs => ⟨none, bs⟩)) [0, 1, 1, 0]) 0) ∧
    run_reports 0 ([[5]].map (fun bs => ⟨none, bs⟩)) [] = [0, 100] ∧
    ("f".toList, process_file ⟨2, [], true, true, true⟩ "f".toList
        (Except.error "e".toList)) ∈
      process_files ⟨2, [], true, true, true⟩ [("f".toList, Except.error "e".toList)] :=
  ⟨(claim_C7_progress_amended 200 [[100], [100]] [0, 1, 1, 0]
      ⟨2, [], true, true, true⟩ []).1 0,
   (claim_C7_progress_amended 0 [[5]] [] ⟨2, [], true, true, true⟩ []).2.2.1 rfl,
   (claim_C7_progress_amended 0 [[5]] [] ⟨2, [], true, true, true⟩
      [("f".toList, Except.error "e".toList)]).2.2.2
     ("f".toList, Except.error "e".toList) (List.mem_singleton.mpr rfl)⟩

theorem find_target_ok (sd : SheetData) (h : sd.column_names ≠ []) :
    ∃ t, find_target_column sd = Except.ok t := by
  unfold find_target_column
  cases hf : sd.column_names.find? (fun col => contains_sub col target_marker) with
  | some col => exact ⟨col, rfl⟩
  | none =>
    cases hh : sd.column_names.head? with
    | some c => exact ⟨c, rfl⟩
    | none => exact absurd (List.head?_eq_none_iff.mp hh) h

theorem process_one_sheet_ok (config : Config) (file_name : List Char)
    (acc : List ExtractResult) (name : List Char) (sd : SheetData)
    (hok : config.target_column ≠ [] ∨ sd.column_names ≠ []) :
    process_one_sheet config file_name acc (name, Except.ok sd)
      = Except.ok (acc ++ sheet_results config file_name (name, sd)) := by
  have hstep : process_one_sheet config file_name acc (name, Except.ok sd)
      = match (if config.target_column = [] then find_target_column sd
               else Except.ok config.target_column) with
        | .error e => .error e
        | .ok target_column =>
          match sd.get_column_by_name target_column with
          | .error _ => .ok acc
          | .ok column_data => .ok (acc ++ process_rows config file_name name sd column_data) :=
    rfl
  have hres : sheet_results config file_name (name, sd)
      = match (if config.target_column = [] then find_target_column sd
               else Except.ok config.target_column) with
        | .error _ => []
        | .ok target_column =>
          match sd.get_column_by_name target_column with
          | .error _ => []
          | .ok column_data => process_rows config file_name name sd column_data :=
    rfl
  rw [hstep, hres]
  by_cases ht : config.target_column = []
  · have hcols : sd.column_names ≠ [] := by
      rcases hok with h | h
      · exact absurd ht h
      · exact h
    obtain ⟨t, hft⟩ := find_target_ok sd hcols
    rw [if_pos ht, hft]
    cases hcd : sd.get_column_by_name t with
    | error e => simp [hcd]
    | ok column_data => simp [hcd]
  · rw [if_neg ht]
    cases hcd : sd.get_column_by_name config.target_column with
    | error e => simp [hcd]
    | ok column_data => simp [hcd]

theorem process_file_fold (config : Config) (file_name : List Char) :
    ∀ (sheets : List (List Char × SheetData)) (acc : List ExtractResult),
      (∀ q ∈ sheets, config.target_column ≠ [] ∨ q.2.column_names ≠ []) →
      (sheets.map (fun q => (q.1, Except.ok q.2))).foldlM
          (process_one_sheet config file_name) acc
        = Except.ok (acc ++ sheets.flatMap (sheet_results config file_name)) := by
  intro sheets
  induction sheets with
  | nil => intro acc _; simp; rfl
  | cons q rest ih =>
    intro acc hok
    rw [List.map_cons, List.foldlM_cons]
    rw [process_one_sheet_ok config file_name acc q.1 q.2 (hok q (List.mem_cons_self q rest))]
    rw [show ((Except.ok (acc ++ sheet_results config file_name (q.1, q.2)) :
          Except (List Char) (List ExtractResult)) >>= fun b =>
          (rest.map (fun p => (p.1, Except.ok p.2))).foldlM (process_one_sheet config file_name) b)
        = (rest.map (fun p => (p.1, Except.ok p.2))).foldlM (process_one_sheet config file_name)
            (acc ++ sheet_results config file_name (q.1, q.2)) from rfl]
    rw [ih _ (fun p hp => hok p (List.mem_cons_of_mem q hp))]
    rw [List.flatMap_cons, List.append_assoc]

/-- C8: an open failure is carried to that file's own entry while every
file's entry is computed from that file alone; and on a file whose sheets
all read and resolve a target column, a sheet lacking the column
contributes nothing (it is skipped) while the others are processed, the
file returning Ok. -/
theorem claim_C8_failure_scoping (config : Config) :
    (∀ (e file_name : List Char),
        process_file config file_name (Except.error e) = Except.error e) ∧
    (∀ (files : List (List Char × FileInput)) (j : Nat) (hj : j < files.length),
        (process_files config files).get ⟨j, by simpa [process_files] using hj⟩ =
          ((files.get ⟨j, hj⟩).1,
            process_file config (files.get ⟨j, hj⟩).1 (files.get ⟨j, hj⟩).2)) ∧
    (∀ (file_name : List Char) (sheets : List (List Char × SheetData)),
        (∀ q ∈ sheets, config.target_column ≠ [] ∨ q.2.column_names ≠ []) →
        process_file config file_name (Except.ok (sheets.map (fun q => (q.1, Except.ok q.2))))
          = Except.ok (sheets.flatMap (sheet_results config file_name))) := by
  refine ⟨fun e file_name => rfl, ?_, ?_⟩
  · intro files j hj
    simp [process_files]
  · intro file_name sheets hok
    rw [show process_file config file_name
          (Except.ok (sheets.map (fun q => (q.1, Except.ok q.2))))
        = (sheets.map (fun q => (q.1, Except.ok q.2))).foldlM
            (process_one_sheet config file_name) [] from rfl]
    rw [process_file_fold config file_name sheets [] hok]
    rfl

/-- C8 witness: a file whose first sheet lacks the configured column and
whose second sheet has it returns Ok with only the second sheet's results,
and an open failure yields that error. -/
theorem claim_C8_witness :
    process_file ⟨1, "T".toList, true, true, true⟩ "f".toList
        (Except.ok [("A".toList, Except.ok ⟨[["X".toList]]⟩),
          ("B".toList, Except.ok ⟨[["T".toList], ["13812345678".toList]]⟩)])
      = Except.ok ([("A".toList, (⟨[["X".toList]]⟩ : SheetData)),
          ("B".toList, (⟨[["T".toList], ["13812345678".toList]]⟩ : SheetData))].flatMap
            (sheet_results ⟨1, "T".toList, true, true, true⟩ "f".toList)) ∧
    process_file ⟨1, "T".toList, true, true, true⟩ "f".toList (Except.error "e".toList)
      = Except.error "e".toList :=
  ⟨(claim_C8_failure_scoping ⟨1, "T".toList, true, true, true⟩).2.2 "f".toList
      [("A".toList, ⟨[["X".toList]]⟩), ("B".toList, ⟨[["T".toList], ["13812345678".toList]]⟩)]
      (fun q _ => Or.inl (by decide)),
   (claim_C8_failure_scoping ⟨1, "T".toList, true, true, true⟩).1 "e".toList "f".toList⟩

end SIE
